import Mathlib

/-!
Verification development for the `url-get` module (src/index.js): a helper
layer that resolves a possibly-relative identifier against base locations,
fetches content from local files or HTTP URLs, decodes YAML/JSON into
objects, and tries an ordered list of candidates until one succeeds.

External collaborators (fs.readFile, preq.get, js-yaml's safeLoad) are
modelled as parameters collected in a `Collab` structure; JS string/path
primitives used by the module (RegExp test of the scheme regex,
String.prototype.split / startsWith, path.basename, path.resolve, the
WHATWG URL pathname accessor, global isNaN) are modelled as executable
Lean functions over `List Char` / `String`.
-/

namespace UrlGet

variable {α ε ω β E : Type}

/-! ## JS primitive models -/

/-- Model of JS `String.prototype.startsWith` (case-sensitive literal
prefix test). -/
def jsStartsWith (s pre : String) : Bool :=
  pre.toList.isPrefixOf s.toList

/-- Truthiness of an optional JS string argument: `undefined` and the
empty string are falsy, every other string is truthy. -/
def jsTruthy : Option String → Bool
  | none => false
  | some s => !(s == "")

/-- Characters admitted by the scheme part of the regex
`^[a-zA-Z0-9+.-]+:\/\/` in src/index.js (RFC 3986 section 3.1). -/
def isSchemeChar (c : Char) : Bool :=
  c.isAlpha || c.isDigit || c == '+' || c == '.' || c == '-'

/-- Splits a character list into its maximal leading run of scheme
characters and the remainder (the span the regex engine would scan). -/
def schemeSpan : List Char → List Char × List Char
  | [] => ([], [])
  | c :: cs =>
    if isSchemeChar c then
      ((c :: (schemeSpan cs).1), (schemeSpan cs).2)
    else
      ([], c :: cs)

/-- `uriHasProtocol` of src/index.js at the character-list level: the
regex `^[a-zA-Z0-9+.-]+:\/\/` matches iff a nonempty run of scheme
characters is followed by `://`.  Because `:` is not a scheme character,
the maximal run is the only candidate match, so the greedy scan below is
exactly the regex test. -/
def looksColonSlashSlash : List Char → Bool
  | a :: b :: c :: _ => a == ':' && b == '/' && c == '/'
  | _ => false

/-- The regex test itself, on the decomposition `schemeSpan` computes. -/
def uriHasProtocolL (cs : List Char) : Bool :=
  !(schemeSpan cs).1.isEmpty && looksColonSlashSlash (schemeSpan cs).2

/-- `uriHasProtocol(uri)` from src/index.js: `uriProtocolRegex.test(uri)`. -/
def uriHasProtocol (uri : String) : Bool :=
  uriHasProtocolL uri.toList

/-- Model of JS `String.prototype.split` with a one-character separator
(always yields at least one, possibly empty, field). -/
def splitOnChar (sep : Char) : List Char → List (List Char)
  | [] => [[]]
  | c :: cs =>
    if c == sep then
      [] :: splitOnChar sep cs
    else
      match splitOnChar sep cs with
      | [] => [[c]]
      | s :: ss => (c :: s) :: ss

/-- Joins segments with `/` (inverse of `splitOnChar '/'`). -/
def joinSegs : List (List Char) → List Char
  | [] => []
  | [s] => s
  | s :: ss => s ++ '/' :: joinSegs ss

/-- Model of Node `path.basename` (posix): drop trailing slashes, then
take the portion after the last slash. -/
def basenameL (cs : List Char) : List Char :=
  ((cs.reverse.dropWhile (fun c => c == '/')).takeWhile (fun c => !(c == '/'))).reverse

/-- JS whitespace trimmed by `ToNumber` on strings (ASCII range plus
NBSP and BOM; other Unicode spaces are outside the modelled domain). -/
def isJsSpace (c : Char) : Bool :=
  c == ' ' || c == '\t' || c == '\n' || c == '\r' ||
  c == '\x0b' || c == '\x0c' || c == '\xa0' || c == '\uFEFF'

/-- Exponent tail of a JS decimal literal: optional sign then one or
more digits, consuming the whole remainder. -/
def jsExpTail (cs : List Char) : Bool :=
  match cs with
  | '+' :: r => !r.isEmpty && r.all Char.isDigit
  | '-' :: r => !r.isEmpty && r.all Char.isDigit
  | r => !r.isEmpty && r.all Char.isDigit

/-- Optional exponent part (`e`/`E` then signed digits) ending the
literal. -/
def jsExpOpt : List Char → Bool
  | [] => true
  | 'e' :: r => jsExpTail r
  | 'E' :: r => jsExpTail r
  | _ => false

/-- Unsigned JS decimal literal: `digits ['.' digits] [exp]` or
`'.' digits [exp]`. -/
def jsDecimal (cs : List Char) : Bool :=
  match cs.dropWhile Char.isDigit with
  | '.' :: r2 =>
    (!(cs.takeWhile Char.isDigit).isEmpty || !(r2.takeWhile Char.isDigit).isEmpty) &&
      jsExpOpt (r2.dropWhile Char.isDigit)
  | r1 => !(cs.takeWhile Char.isDigit).isEmpty && jsExpOpt r1

/-- Unsigned decimal literal or the literal `Infinity`. -/
def jsDecOrInf (cs : List Char) : Bool :=
  cs == ['I', 'n', 'f', 'i', 'n', 'i', 't', 'y'] || jsDecimal cs

/-- Hexadecimal digit. -/
def isHexDigit (c : Char) : Bool :=
  c.isDigit || ('a' ≤ c && c ≤ 'f') || ('A' ≤ c && c ≤ 'F')

/-- Unsigned radix literal `0x…`/`0o…`/`0b…` (signs are not allowed
before radix literals in JS). -/
def jsRadix : List Char → Bool
  | '0' :: x :: r =>
    ((x == 'x' || x == 'X') && !r.isEmpty && r.all isHexDigit) ||
    ((x == 'o' || x == 'O') && !r.isEmpty && r.all (fun c => '0' ≤ c && c ≤ '7')) ||
    ((x == 'b' || x == 'B') && !r.isEmpty && r.all (fun c => c == '0' || c == '1'))
  | _ => false

/-- A trimmed nonempty string that `ToNumber` maps to a non-NaN number. -/
def jsNumericString (cs : List Char) : Bool :=
  match cs with
  | '+' :: r => jsDecOrInf r
  | '-' :: r => jsDecOrInf r
  | cs => jsDecOrInf cs || jsRadix cs

/-- Model of JS global `isNaN` applied to a string: trim, empty trims to
`0` (not NaN), otherwise NaN iff the trimmed text is not a numeric
literal. -/
def jsIsNaN (s : String) : Bool :=
  match ((s.toList.dropWhile isJsSpace).reverse.dropWhile isJsSpace).reverse with
  | [] => false
  | t => !jsNumericString t

/-- Segment-list normalization performed by Node `path.resolve` on an
absolute path: empty and `.` segments are dropped, `..` pops the
previous segment (or is dropped at the root). -/
def normalizeAbsAux (acc : List (List Char)) : List (List Char) → List (List Char)
  | [] => acc
  | s :: rest =>
    if s == ['.', '.'] then
      normalizeAbsAux acc.dropLast rest
    else if s == [] || s == ['.'] then
      normalizeAbsAux acc rest
    else
      normalizeAbsAux (acc ++ [s]) rest

/-- Model of Node `path.resolve(p)` (posix) with the current working
directory passed explicitly: make `p` absolute against `cwd`, then
normalize; the result always begins with `/` and has no trailing slash
(other than the root itself). -/
def pathResolve (cwd p : String) : String :=
  String.mk ('/' :: joinSegs (normalizeAbsAux []
    (splitOnChar '/' (if jsStartsWith p "/" then p.toList else cwd.toList ++ '/' :: p.toList))))

/-- WHATWG URL path normalization of the segments after the leading
slash: `..` pops (leaving an empty final segment when it ends the path),
`.` is dropped (leaving an empty final segment when it ends the path),
everything else is kept verbatim. -/
def normSegsAux (acc : List (List Char)) : List (List Char) → List (List Char)
  | [] => acc
  | [s] =>
    if s == ['.', '.'] then acc.dropLast ++ [[]]
    else if s == ['.'] then acc ++ [[]]
    else acc ++ [s]
  | s :: rest =>
    normSegsAux
      (if s == ['.', '.'] then acc.dropLast
       else if s == ['.'] then acc
       else acc ++ [s]) rest

/-- Serializes the path characters (starting at the first `/` after the
authority) into a pathname; an absent path serializes as `/` for the
special `file:` scheme. -/
def pathnameFromPathChars : List Char → String
  | [] => "/"
  | _ :: path => String.mk ('/' :: joinSegs (normSegsAux [] (splitOnChar '/' path)))

/-- Model of `new URL(url).pathname` for a `url` beginning with
`file://`: skip the scheme and `//`, skip the authority (up to the first
`/`), cut the path at `?` or `#`, and normalize dot segments.  Modelled
domain: ASCII input without backslashes, Windows drive letters, or
characters that the URL serializer percent-encodes. -/
def fileUrlPathname (url : String) : String :=
  pathnameFromPathChars
    (((url.toList.drop 7).dropWhile (fun c => !(c == '/'))).takeWhile
      (fun c => !(c == '?') && !(c == '#')))

/-! ## Data model -/

/-- An opaque options bag: the `uri` field that the HTTP branch of
`urlGet` writes, plus an opaque remainder `rest` standing for every
other field (the core never touches those). -/
structure Options (ω : Type) where
  uri : Option String
  rest : ω
deriving DecidableEq

/-- A JS value arriving at `objectFactory`: a byte `Buffer` (represented
by its UTF-8 decoding, i.e. the result of `data.toString('utf-8')`), an
already-structured object of type `α`, a string, or one of the
unsupported primitive shapes. -/
inductive JsData (α : Type) where
  | buf (utf8 : String)
  | obj (o : α)
  | str (s : String)
  | num (n : Int)
  | boolean (b : Bool)
  | nullv
  | undef
deriving DecidableEq

/-- Errors propagating through the module: the fixed decode-shape
`Error` thrown by `objectFactory`, an error thrown by an external
collaborator (fs / preq / js-yaml), or the valueless `P.reject()` seed
of `urlGetFirstObject`. -/
inductive JsError (ε : Type) where
  | decodeShapeError
  | external (e : ε)
  | seedRejection
deriving DecidableEq

/-- The external collaborators of the module: `fs.readFile` (promisified),
`preq.get(options).then(res => res.body)`, and `yaml.safeLoad`. -/
structure Collab (α ε ω : Type) where
  readFileC : String → Options ω → Except ε (JsData α)
  httpGetC : Options ω → Except ε (JsData α)
  yamlLoad : String → Except ε α

/-- The I/O request that `urlGet` hands to a collaborator: a file read of
a path, or an HTTP GET driven by an options bag. -/
inductive FetchAction (ω : Type) where
  | readFileA (path : String) (opts : Options ω)
  | httpGetA (opts : Options ω)
deriving DecidableEq

/-- The options bag a `FetchAction` carries to its collaborator. -/
def actionOptions : FetchAction ω → Options ω
  | FetchAction.readFileA _ o => o
  | FetchAction.httpGetA o => o

/-! ## The module's functions (src/index.js) -/

/-- `objectFactory(data)` from src/index.js: a `Buffer` is decoded to
UTF-8 and parsed as YAML, an object is returned unchanged, a string is
parsed as YAML, anything else throws the fixed conversion `Error`. -/
def objectFactory (yamlLoad : String → Except ε α) : JsData α → Except (JsError ε) α
  | JsData.buf s => (yamlLoad s).mapError JsError.external
  | JsData.obj o => Except.ok o
  | JsData.str s => (yamlLoad s).mapError JsError.external
  | _ => Except.error JsError.decodeShapeError

/-- The shapes `objectFactory` can convert (buffer, object, string). -/
def isDecodableShape : JsData α → Bool
  | JsData.buf _ => true
  | JsData.obj _ => true
  | JsData.str _ => true
  | _ => false

/-- `fileExtension(filename)` from src/index.js: falsy input yields `""`;
otherwise split the basename on `.` and return the last part when there
are at least two parts and the last is not numeric (`isNaN`), else `""`. -/
def fileExtension (filename : Option String) : String :=
  if jsTruthy filename then
    if (splitOnChar '.' (basenameL (filename.getD "").toList)).length > 1 &&
        jsIsNaN (String.mk ((splitOnChar '.' (basenameL (filename.getD "").toList)).getLastD [])) then
      String.mk ((splitOnChar '.' (basenameL (filename.getD "").toList)).getLastD [])
    else ""
  else ""

/-- First statement of `resolveUri`: if `uri` has no extension and a
default extension is truthy, append it. -/
def extAppendStep (uri : String) (defaultFileExtension : Option String) : String :=
  if (fileExtension (some uri) == "") && jsTruthy defaultFileExtension then
    uri ++ defaultFileExtension.getD ""
  else uri

/-- Second statement of `resolveUri`: if `baseUri` is truthy and `url`
has no protocol, prepend `baseUri`. -/
def basePrependStep (baseUri : Option String) (url : String) : String :=
  if jsTruthy baseUri && !uriHasProtocol url then baseUri.getD "" ++ url else url

/-- Third statement of `resolveUri`: if `url` still has no protocol,
replace it with `file://` plus its `path.resolve` against `cwd`. -/
def fileResolveStep (cwd url : String) : String :=
  if !uriHasProtocol url then "file://" ++ pathResolve cwd url else url

/-- `resolveUri(uri, baseUri, defaultFileExtension)` from src/index.js,
with the process working directory `cwd` passed explicitly. -/
def resolveUri (cwd uri : String) (baseUri defaultFileExtension : Option String) : String :=
  fileResolveStep cwd (basePrependStep baseUri (extAppendStep uri defaultFileExtension))

/-- `urlGet(url, options)` from src/index.js, as the `FetchAction` it
dispatches: no protocol means a plain file read of `url` itself; a
`file://` URL is read at `new URL(url).pathname`; anything else is an
HTTP GET after the assignment `options.uri = url`. -/
def urlGet (url : String) (opts : Options ω) : FetchAction ω :=
  if !uriHasProtocol url then
    FetchAction.readFileA url opts
  else if jsStartsWith url "file://" then
    FetchAction.readFileA (fileUrlPathname url) opts
  else
    FetchAction.httpGetA (Options.mk (some url) opts.rest)

/-- Runs a `FetchAction` against the collaborators. -/
def runFetch (C : Collab α ε ω) : FetchAction ω → Except ε (JsData α)
  | FetchAction.readFileA path opts => C.readFileC path opts
  | FetchAction.httpGetA opts => C.httpGetC opts

/-- `urlGet` together with the collaborator performing the I/O. -/
def urlGetRun (C : Collab α ε ω) (url : String) (opts : Options ω) : Except ε (JsData α) :=
  runFetch C (urlGet url opts)

/-- `urlGetObject(url, options)` from src/index.js:
`urlGet(url, options).then(content => objectFactory(content))`. -/
def urlGetObject (C : Collab α ε ω) (url : String) (opts : Options ω) : Except (JsError ε) α :=
  match urlGetRun C url opts with
  | Except.error e => Except.error (JsError.external e)
  | Except.ok content => objectFactory C.yamlLoad content

/-- `urlGetObject` with the collaborators and options fixed: the
per-candidate operation of the fallback fold. -/
def candidateGet (C : Collab α ε ω) (opts : Options ω) (url : String) : Except (JsError ε) α :=
  urlGetObject C url opts

/-- One step of the promise chain built by `urls.reduce` in
`urlGetFirstObject`: `promise.catch(() => urlGetObject(url, options))`
keeps a fulfilled value and replaces a rejection by a fresh attempt. -/
def promiseStep (g : String → Except E α) (p : Except E α) (url : String) : Except E α :=
  match p with
  | Except.ok v => Except.ok v
  | Except.error _ => g url

/-- The JS coercion `if (!_.isArray(x)) { x = [x]; }`: a non-array
argument becomes a one-element array. -/
def coerceList : Sum β (List β) → List β
  | Sum.inl x => [x]
  | Sum.inr l => l

/-- `urlGetFirstObject(urls, options)` from src/index.js: wrap a
non-array argument, then fold the candidates over a rejected seed
promise, each step catching the previous rejection with a fresh
`urlGetObject` attempt. -/
def urlGetFirstObject (C : Collab α ε ω) (urls : Sum String (List String))
    (opts : Options ω) : Except (JsError ε) α :=
  (coerceList urls).foldl (promiseStep (candidateGet C opts))
    (Except.error JsError.seedRejection)

/-- `uriGetFirstObject(uri, baseUris, defaultFileExtension, options)`
from src/index.js: wrap a non-array `baseUris`, resolve `uri` against
each base in order, and delegate to `urlGetFirstObject`. -/
def uriGetFirstObject (C : Collab α ε ω) (cwd uri : String)
    (baseUris : Sum (Option String) (List (Option String)))
    (defaultFileExtension : Option String) (opts : Options ω) : Except (JsError ε) α :=
  urlGetFirstObject C
    (Sum.inr ((coerceList baseUris).map (fun baseUri => resolveUri cwd uri baseUri defaultFileExtension)))
    opts

/-- Trace model of the promise chain of `urlGetFirstObject`: starting
from promise state `p`, returns the final settled result together with
the list of candidates on which `urlGetObject` was actually invoked, in
invocation order.  A catch callback runs only when the previous promise
rejected, so a fulfilled state attempts nothing further. -/
def foldAttempts (g : String → Except E α) : Except E α → List String → Except E α × List String
  | p, [] => (p, [])
  | p, url :: rest =>
    match p with
    | Except.ok v => (Except.ok v, [])
    | Except.error _ =>
      ((foldAttempts g (g url) rest).1, url :: (foldAttempts g (g url) rest).2)

/-- True when a settled promise (an `Except`) is a rejection. -/
def isError : Except E α → Bool
  | Except.error _ => true
  | Except.ok _ => false

/-! ## Definitions taken from the specification's wording (for the
refinement-style claims, to be compared with the source embeddings) -/

/-- Claim C2, step wording: append `defaultExtension` iff
`fileExtension identifier` is empty and `defaultExtension` is provided. -/
def extAppendSpec (identifier : String) : Option String → String
  | some ext => if fileExtension (some identifier) == "" then identifier ++ ext else identifier
  | none => identifier

/-- Claim C2, step wording: prepend `baseLocation` by plain string
concatenation iff it is provided and the current string has no protocol. -/
def basePrependSpec (url : String) : Option String → String
  | some b => if uriHasProtocol url then url else b ++ url
  | none => url

/-- Claim C2's description of `resolveUri`, assembled in the stated
order, with the final no-protocol case replaced by `file://` plus the
absolute-path resolution against the working directory. -/
def resolveUriSpec (cwd identifier : String) (baseLocation defaultExtension : Option String) : String :=
  fileResolveStep cwd (basePrependSpec (extAppendSpec identifier defaultExtension) baseLocation)

/-- Claim C7's description of `fileExtension`: split the basename on
`.`; fewer than two parts yields `""`; a last part that parses entirely
as a number yields `""`; otherwise the last part verbatim. -/
def fileExtensionClaim (filename : Option String) : String :=
  if (splitOnChar '.' (basenameL (filename.getD "").toList)).length < 2 then ""
  else if jsIsNaN (String.mk ((splitOnChar '.' (basenameL (filename.getD "").toList)).getLastD [])) = false then ""
  else String.mk ((splitOnChar '.' (basenameL (filename.getD "").toList)).getLastD [])

/-- Scheme stripping as claim C4 words it for `file://` URLs: drop the
7 characters `file://` and use the remainder as the filesystem path. -/
def stripFileScheme (url : String) : String :=
  String.mk (url.toList.drop 7)

/-- Claim C4's description of `urlGet`'s dispatch, with the `file://`
branch reading the scheme-stripped remainder of the URL. -/
def urlGetClaimed (url : String) (opts : Options ω) : FetchAction ω :=
  if !uriHasProtocol url then
    FetchAction.readFileA url opts
  else if jsStartsWith url "file://" then
    FetchAction.readFileA (stripFileScheme url) opts
  else
    FetchAction.httpGetA (Options.mk (some url) opts.rest)

/-- No `/`-delimited segment of the string is `.` or `..`. -/
def noDotSegments (p : String) : Bool :=
  (splitOnChar '/' p.toList).all (fun s => !(s == ['.']) && !(s == ['.', '.']))

/-- The string contains neither `?` nor `#`. -/
def noQueryOrFragment (p : String) : Bool :=
  p.toList.all (fun c => !(c == '?') && !(c == '#'))

/-! ## Concrete instances used by witnesses and counterexamples -/

/-- A concrete YAML collaborator: parses the document `num: 7` to the
value `7` and rejects everything else; in particular it rejects the
malformed document `[`, as every conforming YAML parser must
(js-yaml's safeLoad throws `unexpected end of the stream` on it). -/
def yamlLoad0 : String → Except String Nat :=
  fun s =>
    if s == "num: 7" then Except.ok 7
    else if s == "[" then Except.error "unexpected end of the stream"
    else Except.error "bad yaml"

/-- A concrete collaborator set: the filesystem holds only
`/tmp/good.yaml` (containing `num: 7`), and the network is down. -/
def collab0 : Collab Nat String Nat :=
  Collab.mk
    (fun path _ =>
      if path == "/tmp/good.yaml" then Except.ok (JsData.str "num: 7")
      else Except.error ("ENOENT " ++ path))
    (fun _ => Except.error "network unreachable")
    yamlLoad0

/-- A concrete options bag with no `uri` field. -/
def opts0 : Options Nat := Options.mk none 0

/-- Concrete fallback candidates: a missing file, a good file, a third
candidate that must never be attempted. -/
def urls0 : List String := ["/tmp/missing.yaml", "/tmp/good.yaml", "/tmp/other.yaml"]

/-- A trivial options bag over the unit payload. -/
def optsU : Options Unit := Options.mk none Unit.unit

/-- An options bag whose opaque payload is the number 5. -/
def opts5 : Options Nat := Options.mk none 5

/-! ## Helper lemmas -/

theorem toList_append (s t : String) : (s ++ t).toList = s.toList ++ t.toList := by
  simp [String.toList, String.data_append]

theorem uriHasProtocol_file_concat (s : String) : uriHasProtocol ("file://" ++ s) = true := by
  have h : ("file://" ++ s).toList = 'f' :: 'i' :: 'l' :: 'e' :: ':' :: '/' :: '/' :: s.toList := by
    simp [String.toList, String.data_append]
  rw [uriHasProtocol, h]
  rfl

theorem splitOnChar_ne_nil (sep : Char) (l : List Char) : splitOnChar sep l ≠ [] := by
  cases l with
  | nil => simp [splitOnChar]
  | cons c cs =>
    rw [splitOnChar]
    split
    · simp
    · split <;> simp

theorem joinSegs_splitOnChar (cs : List Char) : joinSegs (splitOnChar '/' cs) = cs := by
  induction cs with
  | nil => rfl
  | cons c cs ih =>
    rw [splitOnChar]
    by_cases hc : (c == '/') = true
    · rw [if_pos hc]
      cases h : splitOnChar '/' cs with
      | nil => exact absurd h (splitOnChar_ne_nil '/' cs)
      | cons s ss =>
        rw [h] at ih
        show joinSegs ([] :: s :: ss) = c :: cs
        simp only [joinSegs, List.nil_append]
        rw [ih, show c = '/' from by simpa using hc]
    · rw [if_neg hc]
      cases h : splitOnChar '/' cs with
      | nil => exact absurd h (splitOnChar_ne_nil '/' cs)
      | cons s ss =>
        rw [h] at ih
        cases ss with
        | nil =>
          show joinSegs [c :: s] = c :: cs
          simp only [joinSegs] at ih ⊢
          rw [ih]
        | cons s2 ss2 =>
          show joinSegs ((c :: s) :: s2 :: ss2) = c :: cs
          simp only [joinSegs, List.cons_append] at ih ⊢
          rw [ih]

theorem takeWhile_of_all (p : Char → Bool) (l : List Char) (h : l.all p = true) :
    l.takeWhile p = l := by
  rw [List.takeWhile_eq_self_iff]
  exact List.all_eq_true.mp h

theorem normSegsAux_nodots (l : List (List Char)) :
    ∀ acc : List (List Char), l.all (fun s => !(s == ['.']) && !(s == ['.', '.'])) = true →
      normSegsAux acc l = acc ++ l := by
  induction l with
  | nil => intro acc _; simp [normSegsAux]
  | cons s rest ih =>
    intro acc h
    rw [List.all_cons, Bool.and_eq_true] at h
    obtain ⟨hs, hrest⟩ := h
    rw [Bool.and_eq_true, Bool.not_eq_true', Bool.not_eq_true'] at hs
    obtain ⟨h1, h2⟩ := hs
    cases rest with
    | nil => simp [normSegsAux, h1, h2]
    | cons s2 r2 =>
      simp only [normSegsAux, h1, h2, Bool.false_eq_true, if_false]
      rw [ih (acc ++ [s]) hrest]
      simp

theorem schemeSpan_append (cs : List Char) : (schemeSpan cs).1 ++ (schemeSpan cs).2 = cs := by
  induction cs with
  | nil => rfl
  | cons c cs ih =>
    rw [schemeSpan]
    by_cases hc : isSchemeChar c = true
    · rw [if_pos hc]
      simp only [List.cons_append]
      rw [ih]
    · rw [if_neg hc]
      simp

theorem schemeSpan_all (cs : List Char) : ∀ c ∈ (schemeSpan cs).1, isSchemeChar c = true := by
  induction cs with
  | nil => intro c hc; cases hc
  | cons a cs ih =>
    intro c hc
    rw [schemeSpan] at hc
    by_cases ha : isSchemeChar a = true
    · rw [if_pos ha] at hc
      rcases List.mem_cons.mp hc with h | h
      · rwa [h]
      · exact ih c h
    · rw [if_neg ha] at hc
      cases hc

theorem schemeSpan_of_scheme (x : List Char) (p : List Char)
    (h : ∀ c ∈ p, isSchemeChar c = true) : schemeSpan (p ++ ':' :: x) = (p, ':' :: x) := by
  induction p with
  | nil => rfl
  | cons a p ih =>
    have ha := h a (List.mem_cons_self a p)
    rw [List.cons_append, schemeSpan, if_pos ha, ih (fun c hc => h c (List.mem_cons_of_mem a hc))]

theorem looksColonSlashSlash_iff (l : List Char) :
    looksColonSlashSlash l = true ↔ ∃ t, l = ':' :: '/' :: '/' :: t := by
  cases l with
  | nil => simp [looksColonSlashSlash]
  | cons a l =>
    cases l with
    | nil => simp [looksColonSlashSlash]
    | cons b l =>
      cases l with
      | nil => simp [looksColonSlashSlash]
      | cons c t =>
        simp only [looksColonSlashSlash, Bool.and_eq_true, beq_iff_eq, List.cons.injEq]
        constructor
        · rintro ⟨⟨rfl, rfl⟩, rfl⟩
          exact ⟨t, rfl, rfl, rfl, rfl⟩
        · rintro ⟨t', rfl, rfl, rfl, rfl⟩
          exact ⟨⟨rfl, rfl⟩, rfl⟩

/-! ## Claim theorems -/

/-- C8: `uriHasProtocol uri` returns true if and only if `uri` starts
with one or more characters drawn from `[A-Za-z0-9+.-]` followed
immediately by `://` — any scheme-shaped prefix counts. -/
theorem uriHasProtocol_charact (uri : String) :
    uriHasProtocol uri = true ↔
      ∃ p rest : List Char,
        uri.toList = p ++ ':' :: '/' :: '/' :: rest ∧ p ≠ [] ∧ ∀ c ∈ p, isSchemeChar c = true := by
  constructor
  · intro h
    rw [uriHasProtocol, uriHasProtocolL, Bool.and_eq_true] at h
    obtain ⟨h1, h2⟩ := h
    obtain ⟨t, ht⟩ := (looksColonSlashSlash_iff _).mp h2
    refine ⟨(schemeSpan uri.toList).1, t, ?_, ?_, schemeSpan_all uri.toList⟩
    · conv_lhs => rw [← schemeSpan_append uri.toList]
      rw [ht]
    · intro hnil
      rw [hnil] at h1
      simp at h1
  · rintro ⟨p, rest, hdecomp, hne, hall⟩
    rw [uriHasProtocol, uriHasProtocolL, hdecomp,
      schemeSpan_of_scheme ('/' :: '/' :: rest) p hall, Bool.and_eq_true]
    constructor
    · cases p with
      | nil => exact absurd rfl hne
      | cons a p => rfl
    · rfl

/-- C8 witness: the characterization applied to the concrete input
`file://a`. -/
theorem uriHasProtocol_charact_witness :
    ∃ p rest : List Char,
      ("file://a").toList = p ++ ':' :: '/' :: '/' :: rest ∧ p ≠ [] ∧ ∀ c ∈ p, isSchemeChar c = true :=
  (uriHasProtocol_charact "file://a").mp (by decide)

/-- C3: `resolveUri` is a total function of its four string inputs (so
it never fails and performs no I/O beyond the working directory passed
in), and its result always carries an explicit protocol scheme. -/
theorem resolveUri_always_protocol (cwd uri : String) (b ext : Option String) :
    uriHasProtocol (resolveUri cwd uri b ext) = true := by
  rw [resolveUri, fileResolveStep]
  cases h : uriHasProtocol (basePrependStep b (extAppendStep uri ext)) with
  | false => simpa using uriHasProtocol_file_concat (pathResolve cwd (basePrependStep b (extAppendStep uri ext)))
  | true => simpa using h

/-- C2: `resolveUri` computes exactly the sequence of steps the claim
states: default-extension append, then base-location prepend, then
`file://` plus absolute-path resolution when no protocol is present.
The source guards the first two steps by JS truthiness while the claim
says "provided", but appending or prepending an empty string is the
identity, so the two descriptions agree on every input. -/
theorem resolveUri_matches_spec (cwd uri : String) (b ext : Option String) :
    resolveUri cwd uri b ext = resolveUriSpec cwd uri b ext := by
  rw [resolveUri, resolveUriSpec]
  have h1 : extAppendStep uri ext = extAppendSpec uri ext := by
    cases ext with
    | none => simp [extAppendStep, extAppendSpec, jsTruthy]
    | some e =>
      by_cases he : e = ""
      · subst he
        simp only [extAppendStep, extAppendSpec, jsTruthy]
        by_cases hf : (fileExtension (some uri) == "") = true <;> simp [hf]
      · simp [extAppendStep, extAppendSpec, jsTruthy, he]
  rw [h1]
  have h2 : basePrependStep b (extAppendSpec uri ext) = basePrependSpec (extAppendSpec uri ext) b := by
    cases b with
    | none => simp [basePrependStep, basePrependSpec, jsTruthy]
    | some s =>
      by_cases hs : s = ""
      · subst hs
        cases hp : uriHasProtocol (extAppendSpec uri ext) <;>
          simp [basePrependStep, basePrependSpec, jsTruthy, hp]
      · cases hp : uriHasProtocol (extAppendSpec uri ext) <;>
          simp [basePrependStep, basePrependSpec, jsTruthy, hs, hp]
  rw [h2]

/-- C7: `fileExtension` is total (empty and undefined input yield `""`)
and agrees everywhere with the claim's case analysis: fewer than two
`.`-separated parts of the basename yields `""`, a numeric last part
yields `""`, and otherwise the last part is returned verbatim. -/
theorem fileExtension_matches_claim (fn : Option String) :
    fileExtension fn = fileExtensionClaim fn := by
  cases fn with
  | none => rfl
  | some s =>
    by_cases hs : s = ""
    · subst hs; rfl
    · have ht : jsTruthy (some s) = true := by simp [jsTruthy, hs]
      rw [fileExtension, fileExtensionClaim, ht, if_pos rfl]
      simp only [Option.getD_some]
      by_cases h1 : (splitOnChar '.' (basenameL s.toList)).length > 1
      · cases hN : jsIsNaN (String.mk ((splitOnChar '.' (basenameL s.toList)).getLastD [])) with
        | true =>
          rw [if_pos (by rw [Bool.and_eq_true, decide_eq_true_eq]; exact ⟨h1, rfl⟩),
            if_neg (by omega), if_neg (by simp)]
        | false =>
          rw [if_neg (by rw [Bool.and_eq_true, decide_eq_true_eq]; rintro ⟨-, hc⟩; cases hc),
            if_neg (by omega), if_pos rfl]
      · rw [if_neg (by rw [Bool.and_eq_true, decide_eq_true_eq]; rintro ⟨hc, -⟩; exact h1 hc),
          if_pos (by omega)]

/-! ## The fallback fold: lemmas about the attempt trace -/

theorem foldAttempts_ok (g : String → Except E α) (v : α) (l : List String) :
    foldAttempts g (Except.ok v) l = (Except.ok v, []) := by
  cases l <;> rfl

theorem foldl_promiseStep (g : String → Except E α) (l : List String) :
    ∀ p : Except E α, l.foldl (promiseStep g) p = (foldAttempts g p l).1 := by
  induction l with
  | nil => intro p; rfl
  | cons u t ih =>
    intro p
    cases p with
    | ok v =>
      rw [List.foldl_cons, show promiseStep g (Except.ok v) u = Except.ok v from rfl, ih,
        foldAttempts_ok]
      rfl
    | error e =>
      rw [List.foldl_cons, show promiseStep g (Except.error e) u = g u from rfl, ih]
      rfl

theorem foldAttempts_trace_prefix (g : String → Except E α) (l : List String) :
    ∀ e : E, (foldAttempts g (Except.error e) l).2
      = l.take (foldAttempts g (Except.error e) l).2.length := by
  induction l with
  | nil => intro e; rfl
  | cons u t ih =>
    intro e
    show (u :: (foldAttempts g (g u) t).2)
      = (u :: t).take (u :: (foldAttempts g (g u) t).2).length
    rw [List.length_cons, List.take_succ_cons]
    cases hgu : g u with
    | ok v => rw [foldAttempts_ok]; simp
    | error e2 => exact congrArg (u :: ·) (ih e2)

theorem foldAttempts_trace_attempted (g : String → Except E α) (l : List String) :
    ∀ (e : E) (i : Nat), i + 1 < (foldAttempts g (Except.error e) l).2.length →
      ∃ u err, (foldAttempts g (Except.error e) l).2.get? i = some u
        ∧ g u = Except.error err := by
  induction l with
  | nil => intro e i h; simp [foldAttempts] at h
  | cons u t ih =>
    intro e i h
    cases hgu : g u with
    | ok v =>
      rw [show (foldAttempts g (Except.error e) (u :: t)).2 = u :: (foldAttempts g (g u) t).2
          from rfl, hgu, foldAttempts_ok] at h
      simp at h
    | error e2 =>
      have htr : (foldAttempts g (Except.error e) (u :: t)).2
          = u :: (foldAttempts g (Except.error e2) t).2 := by
        show u :: (foldAttempts g (g u) t).2 = _
        rw [hgu]
      rw [htr] at h ⊢
      cases i with
      | zero => exact ⟨u, e2, rfl, hgu⟩
      | succ j =>
        have h' : j + 1 < (foldAttempts g (Except.error e2) t).2.length := by
          rw [List.length_cons] at h
          omega
        obtain ⟨u', err, h1, h2⟩ := ih e2 j h'
        exact ⟨u', err, by simpa using h1, h2⟩

theorem foldAttempts_first_success (g : String → Except E α) (l : List String) :
    ∀ (e : E) (i : Nat) (hi : i < l.length),
      (g (l.get ⟨i, hi⟩)).isOk = true →
      (∀ j (hj : j < l.length), j < i → (isError (g (l.get ⟨j, hj⟩))) = true) →
      foldAttempts g (Except.error e) l = (g (l.get ⟨i, hi⟩), l.take (i + 1)) := by
  induction l with
  | nil => intro e i hi; exact absurd hi (Nat.not_lt_zero i)
  | cons u t ih =>
    intro e i hi hok hprev
    cases i with
    | zero =>
      rw [show (u :: t).get ⟨0, hi⟩ = u from rfl] at hok ⊢
      cases hgu : g u with
      | error e2 => rw [hgu] at hok; cases hok
      | ok v =>
        show ((foldAttempts g (g u) t).1, u :: (foldAttempts g (g u) t).2) = _
        rw [hgu, foldAttempts_ok]
        simp
    | succ j =>
      have h0 : (isError (g u)) = true := by
        have := hprev 0 (Nat.succ_pos t.length) (Nat.succ_pos j)
        simpa using this
      cases hgu : g u with
      | ok v => rw [hgu] at h0; cases h0
      | error e2 =>
        have hi' : j < t.length := by simpa using hi
        have hok' : (g (t.get ⟨j, hi'⟩)).isOk = true := by simpa using hok
        have hprev' : ∀ k (hk : k < t.length), k < j → (isError (g (t.get ⟨k, hk⟩))) = true := by
          intro k hk hkj
          have := hprev (k + 1) (by simpa using Nat.succ_lt_succ hk) (Nat.succ_lt_succ hkj)
          simpa using this
        show ((foldAttempts g (g u) t).1, u :: (foldAttempts g (g u) t).2) = _
        rw [hgu, ih e2 j hi' hok' hprev']
        simp

theorem foldAttempts_all_fail (g : String → Except E α) (l : List String) :
    ∀ e : E, (∀ i (hi : i < l.length), (isError (g (l.get ⟨i, hi⟩))) = true) →
      (foldAttempts g (Except.error e) l).2 = l ∧
        ∀ u, l.getLast? = some u → (foldAttempts g (Except.error e) l).1 = g u := by
  induction l with
  | nil =>
    intro e _
    exact ⟨rfl, fun u hu => by simp at hu⟩
  | cons u t ih =>
    intro e hall
    have h0 : (isError (g u)) = true := by simpa using hall 0 (Nat.succ_pos t.length)
    cases hgu : g u with
    | ok v => rw [hgu] at h0; cases h0
    | error e2 =>
      have hall' : ∀ i (hi : i < t.length), (isError (g (t.get ⟨i, hi⟩))) = true := by
        intro i hi
        have := hall (i + 1) (by simpa using Nat.succ_lt_succ hi)
        simpa using this
      obtain ⟨htr, hres⟩ := ih e2 hall'
      constructor
      · show u :: (foldAttempts g (g u) t).2 = u :: t
        rw [hgu, htr]
      · intro w hw
        show (foldAttempts g (g u) t).1 = g w
        rw [hgu]
        cases t with
        | nil =>
          have hw' : u = w := by simpa using hw
          rw [← hw', ← hgu]
          rfl
        | cons t0 ts =>
          refine hres w ?_
          rwa [List.getLast?_cons_cons] at hw

/-- C1: `urlGetFirstObject(urls, options)` on a list of URLs equals the
result of the attempt trace `foldAttempts`, whose trace certifies the
fallback discipline: (1) the result is the trace's settled promise;
(2) the attempted candidates are an in-order prefix of `urls`;
(3) every attempted candidate except possibly the last failed before the
next one was attempted (candidate N+1 is only ever attempted after
candidate N failed); (4) if candidate `i` is the first to succeed, the
result is exactly its value and candidates after `i` are never
attempted; (5) if every candidate fails, all are attempted and the
surfaced rejection is the error of the last candidate, earlier errors
being discarded.  Sequentiality holds because each `catch` callback (and
hence each `urlGetObject` call) runs only once the previous promise has
rejected. -/
theorem urlGetFirstObject_fallback_order (C : Collab α ε ω) (opts : Options ω) (urls : List String) :
    urlGetFirstObject C (Sum.inr urls) opts
        = (foldAttempts (candidateGet C opts) (Except.error JsError.seedRejection) urls).1
    ∧ (foldAttempts (candidateGet C opts) (Except.error JsError.seedRejection) urls).2
        = urls.take (foldAttempts (candidateGet C opts) (Except.error JsError.seedRejection) urls).2.length
    ∧ (∀ i, i + 1 < (foldAttempts (candidateGet C opts) (Except.error JsError.seedRejection) urls).2.length →
        ∃ u err,
          (foldAttempts (candidateGet C opts) (Except.error JsError.seedRejection) urls).2.get? i = some u
          ∧ candidateGet C opts u = Except.error err)
    ∧ (∀ i (hi : i < urls.length), (candidateGet C opts (urls.get ⟨i, hi⟩)).isOk = true →
        (∀ j (hj : j < urls.length), j < i → (isError (candidateGet C opts (urls.get ⟨j, hj⟩))) = true) →
        foldAttempts (candidateGet C opts) (Except.error JsError.seedRejection) urls
          = (candidateGet C opts (urls.get ⟨i, hi⟩), urls.take (i + 1)))
    ∧ ((∀ i (hi : i < urls.length), (isError (candidateGet C opts (urls.get ⟨i, hi⟩))) = true) →
        (foldAttempts (candidateGet C opts) (Except.error JsError.seedRejection) urls).2 = urls
        ∧ ∀ u, urls.getLast? = some u →
            (foldAttempts (candidateGet C opts) (Except.error JsError.seedRejection) urls).1
              = candidateGet C opts u) :=
  ⟨foldl_promiseStep (candidateGet C opts) urls (Except.error JsError.seedRejection),
   foldAttempts_trace_prefix (candidateGet C opts) urls JsError.seedRejection,
   fun i h => foldAttempts_trace_attempted (candidateGet C opts) urls JsError.seedRejection i h,
   fun i hi hok hprev =>
     foldAttempts_first_success (candidateGet C opts) urls JsError.seedRejection i hi hok hprev,
   fun hall => foldAttempts_all_fail (candidateGet C opts) urls JsError.seedRejection hall⟩

/-- C1 witness: with the concrete collaborators `collab0` and candidates
`urls0`, the first candidate fails (missing file), the second succeeds
with the decoded value `7`, and the third is never attempted. -/
theorem urlGetFirstObject_fallback_order_witness :
    foldAttempts (candidateGet collab0 opts0) (Except.error JsError.seedRejection) urls0
      = (Except.ok 7, ["/tmp/missing.yaml", "/tmp/good.yaml"]) := by
  have h := (urlGetFirstObject_fallback_order collab0 opts0 urls0).2.2.2.1 1
    (by decide) (by decide) (by decide)
  exact h.trans rfl

/-- C10: on the empty candidate list, `urlGetFirstObject` always fails
with the fold's seed rejection (`P.reject()`), whose constructor carries
no underlying error value, and `uriGetFirstObject` with an empty
base-location list fails the same way; both are total functions, so they
never hang. -/
theorem urlGetFirstObject_empty (C : Collab α ε ω) (opts : Options ω) (cwd uri : String)
    (ext : Option String) :
    urlGetFirstObject C (Sum.inr []) opts = Except.error JsError.seedRejection
    ∧ uriGetFirstObject C cwd uri (Sum.inr []) ext opts = Except.error JsError.seedRejection :=
  ⟨rfl, rfl⟩

/-- C9: `uriGetFirstObject` is exactly `urlGetFirstObject` applied to
the in-order image of the base locations under
`resolveUri identifier · defaultExtension`, with the same options; and a
non-array `baseUris` (resp. non-array `urls`) is first wrapped into a
one-element list. -/
theorem uriGetFirstObject_delegates (C : Collab α ε ω) (cwd uri : String)
    (baseUris : Sum (Option String) (List (Option String)))
    (ext : Option String) (opts : Options ω) :
    uriGetFirstObject C cwd uri baseUris ext opts
        = urlGetFirstObject C
            (Sum.inr ((coerceList baseUris).map (fun b => resolveUri cwd uri b ext))) opts
    ∧ (∀ b : Option String,
        uriGetFirstObject C cwd uri (Sum.inl b) ext opts
          = uriGetFirstObject C cwd uri (Sum.inr [b]) ext opts)
    ∧ (∀ u : String,
        urlGetFirstObject C (Sum.inl u) opts = urlGetFirstObject C (Sum.inr [u]) opts) :=
  ⟨rfl, fun _ => rfl, fun _ => rfl⟩

/-- For a URL of the form `file://` + an absolute path with no dot
segments and no query/fragment characters, the parsed pathname is the
scheme-stripped remainder. -/
theorem fileUrlPathname_strip (p : String) (h0 : jsStartsWith p "/" = true)
    (h1 : noDotSegments p = true) (h2 : noQueryOrFragment p = true) :
    fileUrlPathname ("file://" ++ p) = p := by
  obtain ⟨t, ht⟩ : ∃ t, p.toList = '/' :: t := by
    have h0' : (['/'] : List Char).isPrefixOf p.toList = true := h0
    cases hp : p.toList with
    | nil => rw [hp] at h0'; cases h0'
    | cons c cs =>
      rw [hp] at h0'
      simp only [List.isPrefixOf, Bool.and_eq_true, beq_iff_eq] at h0'
      exact ⟨cs, by rw [← h0'.1]⟩
  have hdrop : ("file://" ++ p).toList.drop 7 = p.toList := by
    rw [toList_append]
    exact List.drop_left "file://".toList p.toList
  rw [fileUrlPathname, hdrop, ht,
    show List.dropWhile (fun c => !(c == '/')) ('/' :: t) = '/' :: t from rfl]
  have hall : ('/' :: t).all (fun c => !(c == '?') && !(c == '#')) = true := by
    rw [noQueryOrFragment, ht] at h2
    exact h2
  rw [takeWhile_of_all _ _ hall]
  show String.mk ('/' :: joinSegs (normSegsAux [] (splitOnChar '/' t))) = p
  have hnodots : (splitOnChar '/' t).all (fun s => !(s == ['.']) && !(s == ['.', '.'])) = true := by
    rw [noDotSegments, ht,
      show splitOnChar '/' ('/' :: t) = [] :: splitOnChar '/' t from rfl,
      List.all_cons, Bool.and_eq_true] at h1
    exact h1.2
  rw [normSegsAux_nodots _ [] hnodots]
  simp only [List.nil_append]
  rw [joinSegs_splitOnChar, ← ht]
  rfl

/-- C4 (amended): `urlGet` dispatches exactly as the claim states on the
first and third branches; on the `file://` branch it reads the URL's
parsed path component (`new URL(url).pathname`) rather than the
scheme-stripped remainder — the two agree whenever the URL has an empty
authority (`file:///…`) and its path has no dot segments and no
query/fragment. -/
theorem urlGet_dispatch (url : String) (opts : Options ω) :
    (uriHasProtocol url = false → urlGet url opts = FetchAction.readFileA url opts)
    ∧ (uriHasProtocol url = true → jsStartsWith url "file://" = true →
        urlGet url opts = FetchAction.readFileA (fileUrlPathname url) opts)
    ∧ (uriHasProtocol url = true → jsStartsWith url "file://" = false →
        urlGet url opts = FetchAction.httpGetA (Options.mk (some url) opts.rest))
    ∧ (∀ p : String, jsStartsWith p "/" = true → noDotSegments p = true →
        noQueryOrFragment p = true → fileUrlPathname ("file://" ++ p) = p) := by
  refine ⟨fun h => ?_, fun h hs => ?_, fun h hs => ?_,
    fun p h0 h1 h2 => fileUrlPathname_strip p h0 h1 h2⟩ <;>
    simp [urlGet, *]

/-- C4 counterexample: at the concrete URL `file://foo/bar` the code
reads the parsed path `/bar` (the URL parser takes `foo` to be the
authority), while the claim's "strip the scheme" description would read
`foo/bar`; so the two dispatchers differ. -/
theorem urlGet_strip_counterexample :
    urlGet "file://foo/bar" optsU ≠ urlGetClaimed "file://foo/bar" optsU := by
  decide

/-- C4 witness: on the ordinary empty-authority URL `file:///tmp/x.yaml`
the dispatch reads exactly `/tmp/x.yaml`, and the strip description
agrees there. -/
theorem urlGet_dispatch_witness :
    urlGet "file:///tmp/x.yaml" optsU = FetchAction.readFileA "/tmp/x.yaml" optsU
    ∧ fileUrlPathname ("file://" ++ "/tmp/x.yaml") = "/tmp/x.yaml" := by
  have h := urlGet_dispatch "file:///tmp/x.yaml" optsU
  exact ⟨(h.2.1 (by decide) (by decide)).trans (by decide),
    h.2.2.2 "/tmp/x.yaml" (by decide) (by decide) (by decide)⟩

/-- C5 (amended): the options bag is forwarded to the file-read
collaborator unchanged on both file branches; on the HTTP branch the
code first executes `options.uri = url` — writing into the
caller-supplied bag — and forwards that bag, every field other than
`uri` unchanged. -/
theorem urlGet_options_forwarding (url : String) (opts : Options ω) :
    (uriHasProtocol url = false → actionOptions (urlGet url opts) = opts)
    ∧ (uriHasProtocol url = true → jsStartsWith url "file://" = true →
        actionOptions (urlGet url opts) = opts)
    ∧ (uriHasProtocol url = true → jsStartsWith url "file://" = false →
        actionOptions (urlGet url opts) = Options.mk (some url) opts.rest) := by
  refine ⟨fun h => ?_, fun h hs => ?_, fun h hs => ?_⟩ <;>
    simp [urlGet, actionOptions, *]

/-- C5 counterexample: fetching the HTTP URL `http://example.org/a.yaml`
forwards an options bag that differs from the caller's bag (the `uri`
field has been written), refuting "passed through unmodified … the core
never writes into it". -/
theorem urlGet_options_counterexample :
    actionOptions (urlGet "http://example.org/a.yaml" opts5) ≠ opts5 := by
  decide

/-- C5 witness: the HTTP branch forwards the bag with `uri` set to the
URL and the opaque payload `5` untouched. -/
theorem urlGet_options_forwarding_witness :
    actionOptions (urlGet "http://example.org/a.yaml" opts5)
      = Options.mk (some "http://example.org/a.yaml") 5 := by
  have h := (urlGet_options_forwarding "http://example.org/a.yaml" opts5).2.2
    (by decide) (by decide)
  exact h.trans rfl

/-- C6 (amended): `objectFactory` returns an already-structured object
unchanged; both a byte buffer (via its UTF-8 decoding) and a string are
handed to the YAML parser, whose own parse failures surface as the
parser's error; and the fixed shape-conversion `DecodeError` is thrown
exactly when the input is none of the three supported shapes — in
particular `objectFactory 42` fails. -/
theorem objectFactory_shapes (yl : String → Except ε α) :
    (∀ o : α, objectFactory yl (JsData.obj o) = Except.ok o)
    ∧ (∀ s, objectFactory yl (JsData.str s) = (yl s).mapError JsError.external)
    ∧ (∀ s, objectFactory yl (JsData.buf s) = (yl s).mapError JsError.external)
    ∧ (∀ d : JsData α, objectFactory yl d = Except.error JsError.decodeShapeError
        ↔ isDecodableShape d = false) := by
  refine ⟨fun o => rfl, fun s => rfl, fun s => rfl, fun d => ?_⟩
  cases d with
  | obj o => simp [objectFactory, isDecodableShape]
  | str s =>
    cases hy : yl s with
    | ok v => simp [objectFactory, isDecodableShape, hy, Except.mapError]
    | error e => simp [objectFactory, isDecodableShape, hy, Except.mapError]
  | buf s =>
    cases hy : yl s with
    | ok v => simp [objectFactory, isDecodableShape, hy, Except.mapError]
    | error e => simp [objectFactory, isDecodableShape, hy, Except.mapError]
  | num n => simp [objectFactory, isDecodableShape]
  | boolean b => simp [objectFactory, isDecodableShape]
  | nullv => simp [objectFactory, isDecodableShape]
  | undef => simp [objectFactory, isDecodableShape]

/-- C6 counterexample: with the concrete YAML collaborator `yamlLoad0`
(which, like any conforming YAML parser, rejects the malformed document
`[`), `objectFactory` fails on the string input `[` although a string is
one of the three supported shapes — so failing "exactly when data is
none of these three shapes" is false. -/
theorem objectFactory_claim_counterexample :
    ¬ (((isError (objectFactory yamlLoad0 (JsData.str "["))) = true)
        ↔ isDecodableShape (JsData.str "[" : JsData Nat) = false) := by
  decide

/-- C6 witness: `objectFactory` applied to the number `42` fails with
the shape-conversion error. -/
theorem objectFactory_shapes_witness :
    objectFactory yamlLoad0 (JsData.num 42) = Except.error JsError.decodeShapeError :=
  ((objectFactory_shapes yamlLoad0).2.2.2 (JsData.num 42)).mpr (by decide)

end UrlGet
